import Mathlib

/-!
Verification development for the client-side framebuffer image engine of
`vncviewer.c` (wlvncc fork).  The pixel buffer is embedded at pixel-word
granularity: the C code accesses the framebuffer exclusively through
`uint8_t* / uint16_t* / uint32_t*` pointers indexed by pixel index
(`j + i` where `j` is a row base `row * width` and `i` a column), so a
buffer is modelled as a total function `Int → Nat` from linear pixel
index to pixel value, `Option`-wrapped to model the `NULL` pointer.
All loop translations are annotated with the exact C loop they embed.
-/

/-- `[a, a+1, ..., b-1]` — the index sequence of a C loop
`for (i = a; i < b; i++)`. -/
def intRange (a b : Int) : List Int :=
  (List.range (b - a).toNat).map (fun k : Nat => a + (k : Int))

/-- A single pixel store `buf[t] = v` (the only way the C code mutates the
framebuffer). -/
def writePx (fb : Int → Nat) (t : Int) (v : Nat) : Int → Nat :=
  fun p => if p = t then v else fb p

/-- The slice of `rfbClient` (from `rfbclient.h`) that the verified
operations read and write: buffer geometry, the pixel format's
`bitsPerPixel`, the framebuffer pointer and the three socket handles. -/
structure rfbClient where
  width : Int
  height : Int
  bitsPerPixel : Nat
  frameBuffer : Option (Int → Nat)
  sock : Int
  listenSock : Int
  listen6Sock : Int

/-- `CheckRect` (vncviewer.c:268-270):
`return x + w <= client->width && y + h <= client->height;` -/
def checkRect (c : rfbClient) (x y w h : Int) : Bool :=
  decide (x + w ≤ c.width) && decide (y + h ≤ c.height)

/-- Value of the pixel at linear index `idx` (0 when no buffer is
allocated). -/
def pixelAt (c : rfbClient) (idx : Int) : Nat :=
  match c.frameBuffer with
  | some fb => fb idx
  | none => 0

/-! ### FillRectangle (vncviewer.c:272-296)

```
#define FILL_RECT(BPP) \
    for(j=y*client->width;j<(y+h)*client->width;j+=client->width) \
      for(i=x;i<x+w;i++) \
        ((uint##BPP##_t*)client->frameBuffer)[j+i]=colour;
```
For `0 < width` the outer loop performs exactly `h` iterations with
`j = (y+k)*width`, `k = 0,…,h-1`; we enumerate the rows as
`intRange y (y+h)` with `j = r * width`.  Storing the `uint32_t` colour
into a `uintBPP_t` cell truncates it to `colour % 2^BPP`. -/

/-- Inner loop of `FILL_RECT`: `for(i=x;i<x+w;i++) fb[j+i]=v`. -/
def fillRow (v : Nat) (x w j : Int) (fb : Int → Nat) : Int → Nat :=
  (intRange x (x + w)).foldl (fun g i => writePx g (j + i) v) fb

/-- Both loops of `FILL_RECT`. -/
def fillRect (fb : Int → Nat) (W x y w h : Int) (v : Nat) : Int → Nat :=
  (intRange y (y + h)).foldl (fun g r => fillRow v x w (r * W) g) fb

/-- `FillRectangle` (vncviewer.c:272-296): NULL-buffer guard, `CheckRect`
guard, then dispatch on `bitsPerPixel ∈ {8,16,32}`; the three macro
expansions perform the same pixel-indexed loops, differing only in the
store width (truncation of `colour`). -/
def FillRectangle (c : rfbClient) (x y w h : Int) (colour : Nat) : rfbClient :=
  match c.frameBuffer with
  | none => c
  | some fb =>
    if ¬ (checkRect c x y w h) then c
    else if c.bitsPerPixel = 8 then
      { c with frameBuffer := some (fillRect fb c.width x y w h (colour % 2 ^ 8)) }
    else if c.bitsPerPixel = 16 then
      { c with frameBuffer := some (fillRect fb c.width x y w h (colour % 2 ^ 16)) }
    else if c.bitsPerPixel = 32 then
      { c with frameBuffer := some (fillRect fb c.width x y w h (colour % 2 ^ 32)) }
    else c

/-! ### CopyRectangle (vncviewer.c:298-326)

```
#define COPY_RECT(BPP) \
  { \
    int rs = w * BPP / 8, rs2 = client->width * BPP / 8; \
    for (j = ((x * (BPP / 8)) + (y * rs2)); j < (y + h) * rs2; j += rs2) { \
      memcpy(client->frameBuffer + j, buffer, rs); \
      buffer += rs; \
    } \
  }
```
The loop works on byte offsets; `rs = w` pixels and `rs2 = width` pixels.
For `0 < width` and `0 ≤ x < width` (guaranteed by `CheckRect` plus
`0 ≤ x` whenever `w ≥ 1`; for `w ≤ 0` each `memcpy` copies nothing) it
performs `h` iterations, iteration `r` copying `w` source pixels starting
at source pixel `r*w` to destination pixels starting at
`(y+r)*width + x`.  The tightly packed source byte buffer is embedded at
pixel granularity as `src : Nat → Nat` (source byte range
`[k*BPP/8, (k+1)*BPP/8)` is pixel `src k`). -/

/-- One `memcpy(fb + dstBase, src + srcBase, n pixels)`. -/
def copyRow (src : Nat → Nat) (srcBase n : Nat) (dstBase : Int) (fb : Int → Nat) :
    Int → Nat :=
  (List.range n).foldl
    (fun g (i : Nat) => writePx g (dstBase + (i : Int)) (src (srcBase + i))) fb

/-- The row loop of `COPY_RECT`. -/
def copyRect (fb : Int → Nat) (src : Nat → Nat) (W x y w h : Int) : Int → Nat :=
  (List.range h.toNat).foldl
    (fun g r => copyRow src (r * w.toNat) w.toNat ((y + (r : Int)) * W + x) g) fb

/-- `CopyRectangle` (vncviewer.c:298-326): NULL-buffer guard, `CheckRect`
guard, then the `COPY_RECT` loop for `bitsPerPixel ∈ {8,16,32}`. -/
def CopyRectangle (c : rfbClient) (buffer : Nat → Nat) (x y w h : Int) : rfbClient :=
  match c.frameBuffer with
  | none => c
  | some fb =>
    if ¬ (checkRect c x y w h) then c
    else if c.bitsPerPixel = 8 then
      { c with frameBuffer := some (copyRect fb buffer c.width x y w h) }
    else if c.bitsPerPixel = 16 then
      { c with frameBuffer := some (copyRect fb buffer c.width x y w h) }
    else if c.bitsPerPixel = 32 then
      { c with frameBuffer := some (copyRect fb buffer c.width x y w h) }
    else c

/-! ### CopyRectangleFromRectangle (vncviewer.c:329-383)

```
#define COPY_RECT_FROM_RECT(BPP) \
  { \
    uint##BPP##_t* _buffer=((uint##BPP##_t*)client->frameBuffer)+(src_y-dest_y)*client->width+src_x-dest_x; \
    if (dest_y < src_y) { \
      for(j = dest_y*client->width; j < (dest_y+h)*client->width; j += client->width) { \
        if (dest_x < src_x) { \
          for(i = dest_x; i < dest_x+w; i++) fb[j+i]=_buffer[j+i]; \
        } else { \
          for(i = dest_x+w-1; i >= dest_x; i--) fb[j+i]=_buffer[j+i]; \
        } \
      } \
    } else { \
      for(j = (dest_y+h-1)*client->width; j >= dest_y*client->width; j-=client->width) { \
        ... same inner loops ... \
      } \
    } \
  }
```
`_buffer[j+i]` reads the framebuffer itself at offset
`(src_y-dest_y)*width + (src_x-dest_x)` from the write position: this is
a true in-place overlapping copy.  For `0 < width` the ascending row loop
visits `j = r*width` for `r = dest_y, …, dest_y+h-1` and the descending
one visits the same rows in reverse order; the inner loops visit columns
`dest_x, …, dest_x+w-1` ascending (`dest_x < src_x`) or descending
(otherwise). -/

/-- The read offset `(src_y-dest_y)*width + (src_x-dest_x)` of `_buffer`
relative to the destination pixel. -/
def selfOff (W src_x src_y dest_x dest_y : Int) : Int :=
  (src_y - dest_y) * W + (src_x - dest_x)

/-- Column visit order of the inner loops. -/
def selfCols (src_x dest_x w : Int) : List Int :=
  if dest_x < src_x then intRange dest_x (dest_x + w)
  else (intRange dest_x (dest_x + w)).reverse

/-- Row visit order of the outer loops. -/
def selfRows (src_y dest_y h : Int) : List Int :=
  if dest_y < src_y then intRange dest_y (dest_y + h)
  else (intRange dest_y (dest_y + h)).reverse

/-- The loop nest of `COPY_RECT_FROM_RECT`: each visited destination pixel
`r*W + i` is overwritten with the *current* buffer value at
`r*W + i + selfOff` (the read aliases the mutated buffer). -/
def copyRectFromRect (fb : Int → Nat) (W src_x src_y w h dest_x dest_y : Int) :
    Int → Nat :=
  (selfRows src_y dest_y h).foldl
    (fun g r => (selfCols src_x dest_x w).foldl
      (fun g2 i => writePx g2 (r * W + i)
        (g2 (r * W + i + selfOff W src_x src_y dest_x dest_y))) g)
    fb

/-- `CopyRectangleFromRectangle` (vncviewer.c:329-383): NULL-buffer guard,
`CheckRect` on the source rectangle, `CheckRect` on the destination
rectangle, then the `COPY_RECT_FROM_RECT` loop nest for
`bitsPerPixel ∈ {8,16,32}`. -/
def CopyRectangleFromRectangle (c : rfbClient)
    (src_x src_y w h dest_x dest_y : Int) : rfbClient :=
  match c.frameBuffer with
  | none => c
  | some fb =>
    if ¬ (checkRect c src_x src_y w h) then c
    else if ¬ (checkRect c dest_x dest_y w h) then c
    else if c.bitsPerPixel = 8 then
      { c with frameBuffer := some (copyRectFromRect fb c.width src_x src_y w h dest_x dest_y) }
    else if c.bitsPerPixel = 16 then
      { c with frameBuffer := some (copyRectFromRect fb c.width src_x src_y w h dest_x dest_y) }
    else if c.bitsPerPixel = 32 then
      { c with frameBuffer := some (copyRectFromRect fb c.width src_x src_y w h dest_x dest_y) }
    else c

/-- Abstract view of the loop nest: the flat sequence of destination
indices, in program order, each written with the current value at offset
`off`. -/
def applyMoves (off : Int) (fb : Int → Nat) (ts : List Int) : Int → Nat :=
  ts.foldl (fun g t => writePx g t (g (t + off))) fb

/-! ### MallocFrameBuffer (vncviewer.c:239-264)

```
  if(client->frameBuffer) { free(client->frameBuffer); client->frameBuffer = NULL; }
  allocSize = (uint64_t)client->width * client->height * client->format.bitsPerPixel/8;
  if (allocSize >= SIZE_MAX) { ...; return FALSE; }
  client->frameBuffer=malloc( (size_t)allocSize );
  ...
  return client->frameBuffer?TRUE:FALSE;
```
-/

/-- Conversion of a C `int` to `uint64_t` (wraps negatives). -/
def toU64 (i : Int) : Nat := (i % (2 ^ 64 : Int)).toNat

/-- `allocSize`: the 64-bit product `width * height * bitsPerPixel`, then
integer division by 8 (C precedence parses `w * h * bpp / 8` as
`((w * h) * bpp) / 8`), all in wrapping `uint64_t` arithmetic. -/
def allocSize64 (c : rfbClient) : Nat :=
  (toU64 c.width * toU64 c.height % 2 ^ 64 * c.bitsPerPixel % 2 ^ 64) / 8

/-- `MallocFrameBuffer` (vncviewer.c:239-264), parameterized by the
platform's `SIZE_MAX` and the allocator's answer `mres` (`none` models a
failed `malloc`).  Returns the C `rfbBool` result and the updated
client.  The previous buffer is freed (pointer nulled) before anything
else, exactly as in the source. -/
def MallocFrameBuffer (c : rfbClient) (sizeMax : Nat)
    (mres : Option (Int → Nat)) : Bool × rfbClient :=
  let c1 : rfbClient := { c with frameBuffer := none }
  if allocSize64 c ≥ sizeMax then (false, c1)
  else ((Option.isSome mres), { c1 with frameBuffer := mres })

/-! ### rfbClientCleanup (vncviewer.c:516-568), socket handling -/

/-- `RFB_INVALID_SOCKET` (POSIX build: -1). -/
def RFB_INVALID_SOCKET : Int := -1

/-- The socket handles `rfbClientCleanup` passes to `rfbCloseSocket`, in
program order (vncviewer.c:551-554):
```
  if (client->sock != RFB_INVALID_SOCKET) rfbCloseSocket(client->sock);
  if (client->listenSock != RFB_INVALID_SOCKET) rfbCloseSocket(client->listenSock);
```
`listen6Sock` is not closed anywhere in the function. -/
def rfbClientCleanup_closedSockets (c : rfbClient) : List Int :=
  (if c.sock ≠ RFB_INVALID_SOCKET then [c.sock] else []) ++
  (if c.listenSock ≠ RFB_INVALID_SOCKET then [c.listenSock] else [])

/-! ### Credential acquisition (vncviewer.c:45-237) -/

/-- Observable side effects of the credential helpers. -/
inductive Effect where
  | runCmd (cmd : String)
  | readEnv (name : String)
  | promptEcho (title : String)
  | promptNoEcho (title : String)
deriving DecidableEq

/-- The environment a credential-helper run observes: configuration, the
process-level outcomes, the auth subprocess's stdout (as the list of
lines `getline` would yield, newline-trimmed as the source trims them),
the two credential environment variables, and terminal behaviour
(`promptResponse` is the line typed at a given prompt, `none` a failed
`getline`; `ttyOk` whether `tcgetattr`/`tcsetattr` succeed). -/
structure World where
  auth_command : Option String
  pipeOk : Bool
  fdopenOk : Bool
  forkOk : Bool
  waitRc : Int
  exitedNormally : Bool
  cmdOutput : List String
  envUsername : Option String
  envPassword : Option String
  ttyOk : Bool
  promptResponse : String → Option String

/-- Result of `RunAuthCommand`: a returned `rc` together with the values
stored through the `username`/`password` out-parameters, or undefined
behaviour (a load through a NULL pointer). -/
inductive RunAuthResult where
  | crash
  | ret (rc : Int) (username : Option String) (password : Option String)
deriving DecidableEq

/-- `RunAuthCommand` (vncviewer.c:80-162).  `wantUsername` is whether the
caller passed a non-NULL `username` out-parameter.  Pipe/fdopen/fork
failures return -1 before the subprocess runs; a failed `waitpid`
returns its negative value; an abnormal child exit returns the
NON-negative `waitpid` value with no credentials stored; after a normal
exit the stdout lines are consumed (first line into `*username` when
requested, next line into `*password`) and the line-154 check
`if ((*username && !*username) || !*password) return -1;` runs — when
`username == NULL` evaluating `*username` is a NULL dereference,
modelled as `crash`. -/
def RunAuthCommand (w : World) (wantUsername : Bool) :
    RunAuthResult × List Effect :=
  if ¬ w.pipeOk then (.ret (-1) none none, [])
  else if ¬ w.fdopenOk then (.ret (-1) none none, [])
  else if ¬ w.forkOk then (.ret (-1) none none, [])
  else
    let childEffects : List Effect :=
      [.readEnv "SHELL", .runCmd (w.auth_command.getD "")]
    if w.waitRc < 0 then (.ret w.waitRc none none, childEffects)
    else if ¬ w.exitedNormally then (.ret w.waitRc none none, childEffects)
    else
      let username : Option String :=
        if wantUsername then w.cmdOutput.head? else none
      let rest : List String :=
        if wantUsername then w.cmdOutput.tail else w.cmdOutput
      let password : Option String := rest.head?
      if wantUsername then
        if (username.isSome && username.isNone) || password.isNone
        then (.ret (-1) username password, childEffects)
        else (.ret w.waitRc username password, childEffects)
      else (.crash, childEffects)

/-- `ReadLine` (vncviewer.c:45-59): prompt on stderr, read one line from
stdin, trim the newline. -/
def ReadLine (w : World) (title : String) : Option String × List Effect :=
  (w.promptResponse title, [.promptEcho title])

/-- `ReadLineNoEcho` (vncviewer.c:61-78): suppress terminal echo around
`ReadLine`, restoring it afterwards; failed `tcgetattr`/`tcsetattr`
returns NULL without prompting. -/
def ReadLineNoEcho (w : World) (title : String) : Option String × List Effect :=
  if ¬ w.ttyOk then (none, [])
  else (w.promptResponse title, [.promptNoEcho title])

/-- Result of a credential callback: `crash` for undefined behaviour in a
callee, otherwise the returned value (`none` models NULL). -/
inductive Outcome (α : Type) where
  | crash
  | ok (val : α)

/-- `ReadPassword` (vncviewer.c:164-173): with an auth-command configured,
only `RunAuthCommand` is consulted; otherwise the interactive no-echo
prompt. -/
def ReadPassword (w : World) : Outcome (Option String) × List Effect :=
  match w.auth_command with
  | some _ =>
    match RunAuthCommand w false with
    | (.crash, tr) => (.crash, tr)
    | (.ret rc _ p, tr) => if rc < 0 then (.ok none, tr) else (.ok p, tr)
  | none =>
    let r := ReadLineNoEcho w "Password"
    (.ok r.1, r.2)

/-- `ReadUsernameAndPassword` (vncviewer.c:175-213): auth-command branch;
otherwise the VNC_USERNAME/VNC_PASSWORD environment branch when both are
set; otherwise the interactive branch; a missing username or password
ends in the `failure` label (free and return NULL). -/
def ReadUsernameAndPassword (w : World) :
    Outcome (Option (Option String × Option String)) × List Effect :=
  match w.auth_command with
  | some _ =>
    match RunAuthCommand w true with
    | (.crash, tr) => (.crash, tr)
    | (.ret rc u p, tr) =>
      if rc < 0 then (.ok none, tr) else (.ok (some (u, p)), tr)
  | none =>
    let envEff : List Effect := [.readEnv "VNC_USERNAME", .readEnv "VNC_PASSWORD"]
    match w.envUsername, w.envPassword with
    | some u, some p => (.ok (some (some u, some p)), envEff)
    | _, _ =>
      let ru := ReadLine w "User"
      let rp := ReadLineNoEcho w "Password"
      if ru.1 = none ∨ rp.1 = none then (.ok none, envEff ++ ru.2 ++ rp.2)
      else (.ok (some (ru.1, rp.1)), envEff ++ ru.2 ++ rp.2)

/-- Whether an effect consults a fallback credential source: one of the
two credential environment variables or an interactive prompt. -/
def consultsFallback : Effect → Bool
  | .readEnv n => n == "VNC_USERNAME" || n == "VNC_PASSWORD"
  | .promptEcho _ => true
  | .promptNoEcho _ => true
  | .runCmd _ => false

/-! ### Demo values used by witnesses -/

/-- 4×4, 16 bpp client holding a zeroed buffer (the spec's example
geometry). -/
def fillDemoClient : rfbClient :=
  { width := 4, height := 4, bitsPerPixel := 16,
    frameBuffer := some (fun _ => 0), sock := -1, listenSock := -1,
    listen6Sock := -1 }

/-- Buffer holding its own index as value, to distinguish pixels. -/
def idxDemoFB : Int → Nat := fun p => p.toNat

/-- 4×4, 16 bpp client over `idxDemoFB`. -/
def idxDemoClient : rfbClient :=
  { width := 4, height := 4, bitsPerPixel := 16,
    frameBuffer := some idxDemoFB, sock := -1, listenSock := -1,
    listen6Sock := -1 }

/-- Client with no framebuffer allocated. -/
def nullDemoClient : rfbClient :=
  { width := 4, height := 4, bitsPerPixel := 16, frameBuffer := none,
    sock := -1, listenSock := -1, listen6Sock := -1 }

/-- Client whose dimensions make the 64-bit byte size exceed a 32-bit
`SIZE_MAX`. -/
def mallocDemoClient : rfbClient :=
  { width := 65535, height := 65535, bitsPerPixel := 32,
    frameBuffer := some (fun _ => 0), sock := -1, listenSock := -1,
    listen6Sock := -1 }

/-- Client with only the IPv6 listen socket still open. -/
def cleanup6DemoClient : rfbClient :=
  { width := 0, height := 0, bitsPerPixel := 32, frameBuffer := none,
    sock := RFB_INVALID_SOCKET, listenSock := RFB_INVALID_SOCKET,
    listen6Sock := 5 }

/-- World with an auth-command configured AND environment variables AND a
working terminal, to exercise the precedence claim. -/
def authDemoWorld : World :=
  { auth_command := some "getpw", pipeOk := true, fdopenOk := true,
    forkOk := true, waitRc := 100, exitedNormally := true,
    cmdOutput := ["alice", "hunter2"],
    envUsername := some "envuser", envPassword := some "envpass",
    ttyOk := true, promptResponse := fun _ => some "typed" }

/-- World where the auth command exits normally with empty stdout. -/
def authNoOutputWorld : World :=
  { auth_command := some "true", pipeOk := true, fdopenOk := true,
    forkOk := true, waitRc := 100, exitedNormally := true, cmdOutput := [],
    envUsername := none, envPassword := none, ttyOk := true,
    promptResponse := fun _ => none }

/-! ### Claim theorems -/

/-! ### Proofs -/

theorem mem_intRange {a b p : Int} : p ∈ intRange a b ↔ a ≤ p ∧ p < b := by
  simp only [intRange, List.mem_map, List.mem_range]
  constructor
  · rintro ⟨k, hk, rfl⟩; omega
  · intro h; exact ⟨(p - a).toNat, by omega, by omega⟩

theorem intRange_pairwise_lt (a b : Int) : (intRange a b).Pairwise (· < ·) := by
  rw [intRange, List.pairwise_map]
  exact (List.pairwise_lt_range _).imp (by omega)

theorem writePx_self (fb : Int → Nat) (t : Int) : writePx fb t (fb t) = fb := by
  funext p
  unfold writePx
  split
  · subst p; rfl
  · rfl

theorem checkRect_iff {c : rfbClient} {x y w h : Int} :
    checkRect c x y w h = true ↔ x + w ≤ c.width ∧ y + h ≤ c.height := by
  simp [checkRect]

/-- A fold of constant-value writes: a point holds `v` afterwards iff it
was one of the written targets. -/
theorem foldl_writePx_const (l : List Int) (j : Int) (v : Nat) :
    ∀ (fb : Int → Nat) (p : Int),
      (l.foldl (fun g i => writePx g (j + i) v) fb) p =
        if (p - j) ∈ l then v else fb p := by
  induction l with
  | nil => intro fb p; simp
  | cons a l ih =>
    intro fb p
    simp only [List.foldl_cons, ih, List.mem_cons]
    by_cases hmem : p - j ∈ l
    · simp [hmem]
    · by_cases hpa : p - j = a
      · simp [hmem, hpa, writePx, show p = j + a by omega]
      · have : ¬ p = j + a := by omega
        simp [hmem, hpa, writePx, this]

theorem fillRow_apply (v : Nat) (x w j : Int) (fb : Int → Nat) (p : Int) :
    fillRow v x w j fb p = if x ≤ p - j ∧ p - j < x + w then v else fb p := by
  rw [fillRow, foldl_writePx_const]
  simp only [mem_intRange]

theorem fillRows_out (v : Nat) (x w W : Int) (p : Int) :
    ∀ (rows : List Int) (fb : Int → Nat),
      (∀ r ∈ rows, ¬ (x ≤ p - r * W ∧ p - r * W < x + w)) →
      (rows.foldl (fun g r => fillRow v x w (r * W) g) fb) p = fb p := by
  intro rows
  induction rows with
  | nil => intro fb _; rfl
  | cons r0 rows ih =>
    intro fb hout
    simp only [List.foldl_cons]
    rw [ih _ fun r hr => hout r (List.mem_cons_of_mem _ hr)]
    rw [fillRow_apply, if_neg (hout r0 (List.mem_cons_self _ _))]

theorem fillRows_in (v : Nat) (x w W : Int) (p : Int) :
    ∀ (rows : List Int) (fb : Int → Nat),
      (∃ r ∈ rows, x ≤ p - r * W ∧ p - r * W < x + w) →
      (rows.foldl (fun g r => fillRow v x w (r * W) g) fb) p = v := by
  intro rows
  induction rows with
  | nil => rintro fb ⟨r, hr, _⟩; exact absurd hr (List.not_mem_nil r)
  | cons r0 rows ih =>
    intro fb hin
    simp only [List.foldl_cons]
    by_cases hrest : ∃ r ∈ rows, x ≤ p - r * W ∧ p - r * W < x + w
    · exact ih _ hrest
    · obtain ⟨r, hr, hb⟩ := hin
      rcases List.mem_cons.mp hr with rfl | hr'
      · rw [fillRows_out v x w W p rows _ (fun r' hr' hb' => hrest ⟨r', hr', hb'⟩)]
        rw [fillRow_apply, if_pos hb]
      · exact absurd ⟨r, hr', hb⟩ hrest

/-- If a multiple of `W` lies strictly between `-W` and `W`, the factor is
zero.  Used to invert linear pixel indices `r * W + i`. -/
theorem int_mul_eq_zero_of_abs_lt {d W v : Int} (hW : 0 < W) (hv1 : -W < v)
    (hv2 : v < W) (heq : d * W = v) : d = 0 := by
  by_contra hd
  rcases lt_or_gt_of_ne hd with hneg | hpos
  · have h1 : d ≤ -1 := by omega
    have : d * W ≤ (-1) * W := by
      exact mul_le_mul_of_nonneg_right h1 hW.le
    omega
  · have h1 : 1 ≤ d := by omega
    have : 1 * W ≤ d * W := by
      exact mul_le_mul_of_nonneg_right h1 hW.le
    omega

/-- Uniqueness of the (row, column) decomposition of a linear pixel index
when columns are within `[0, W)`. -/
theorem linearIdx_inj {W r r' i i' : Int} (hW : 0 < W) (hi : 0 ≤ i)
    (hiW : i < W) (hi' : 0 ≤ i') (hi'W : i' < W)
    (heq : r * W + i = r' * W + i') : r = r' ∧ i = i' := by
  have hd : (r - r') * W = i' - i := by linear_combination heq
  have h0 : r - r' = 0 :=
    int_mul_eq_zero_of_abs_lt hW (by omega) (by omega) hd
  have hrr : r = r' := by omega
  subst hrr
  refine ⟨rfl, ?_⟩
  omega

/-- Pointwise effect of `FILL_RECT`'s loop nest at pixel `(a, b)`:
inside the rectangle the value is `v`, outside it is untouched. -/
theorem fillRect_pixel (fb : Int → Nat) (W x y w h : Int) (v : Nat) (a b : Int)
    (hW : 0 < W) (hx : 0 ≤ x) (hxw : x + w ≤ W) (ha : 0 ≤ a) (haW : a < W) :
    fillRect fb W x y w h v (b * W + a) =
      if x ≤ a ∧ a < x + w ∧ y ≤ b ∧ b < y + h then v
      else fb (b * W + a) := by
  rw [fillRect]
  by_cases hcond : x ≤ a ∧ a < x + w ∧ y ≤ b ∧ b < y + h
  · rw [if_pos hcond]
    refine fillRows_in v x w W _ _ fb
      ⟨b, mem_intRange.mpr ⟨hcond.2.2.1, hcond.2.2.2⟩, by omega, by omega⟩
  · rw [if_neg hcond]
    apply fillRows_out
    intro r hr hb
    rw [mem_intRange] at hr
    have hdW : (b - r) * W = (b * W + a - r * W) - a := by ring
    have h0 : b - r = 0 :=
      int_mul_eq_zero_of_abs_lt hW (by omega) (by omega) hdW
    have hrb : r = b := by omega
    subst hrb
    exact hcond ⟨by omega, by omega, hr.1, hr.2⟩

/-- Pointwise effect of one `memcpy` row. -/
theorem copyRow_apply (src : Nat → Nat) (srcBase : Nat) (dstBase : Int)
    (n : Nat) (fb : Int → Nat) (p : Int) :
    copyRow src srcBase n dstBase fb p =
      if 0 ≤ p - dstBase ∧ p - dstBase < (n : Int)
      then src (srcBase + (p - dstBase).toNat) else fb p := by
  induction n generalizing fb with
  | zero =>
    rw [copyRow]
    simp only [List.range_zero, List.foldl_nil]
    rw [if_neg (by omega)]
  | succ m ih =>
    rw [copyRow, List.range_succ, List.foldl_append]
    rw [show ∀ g0, List.foldl
        (fun g (i : Nat) => writePx g (dstBase + (i : Int)) (src (srcBase + i))) g0
        (List.range m) = copyRow src srcBase m dstBase g0 from fun g0 => rfl]
    simp only [List.foldl_cons, List.foldl_nil]
    by_cases hlast : p = dstBase + (m : Int)
    · rw [writePx, if_pos hlast, if_pos (by omega)]
      congr 1
      omega
    · rw [writePx, if_neg hlast, ih]
      by_cases hin : 0 ≤ p - dstBase ∧ p - dstBase < (m : Int)
      · rw [if_pos hin, if_pos (by omega)]
      · rw [if_neg hin, if_neg (by omega)]

/-- Rows processed after row `b` never touch a pixel of row `y + b`
(given column containment), so the value written for row `b` survives. -/
theorem copyRect_rows_pixel (src : Nat → Nat) (W x y w a b : Int)
    (hW : 0 < W) (hx : 0 ≤ x) (hxw : x + w ≤ W)
    (ha : 0 ≤ a) (haw : a < w) (hb : 0 ≤ b) :
    ∀ (n : Nat) (fb : Int → Nat), b.toNat < n →
      ((List.range n).foldl
        (fun g (r : Nat) => copyRow src (r * w.toNat) w.toNat ((y + (r : Int)) * W + x) g) fb)
        ((y + b) * W + (x + a)) = src (b.toNat * w.toNat + a.toNat) := by
  intro n
  induction n with
  | zero => intro fb hbn; omega
  | succ m ih =>
    intro fb hbn
    rw [List.range_succ, List.foldl_append]
    simp only [List.foldl_cons, List.foldl_nil]
    by_cases hlast : b.toNat = m
    · -- row b is the last processed row: its `memcpy` writes the pixel,
      -- and no later row exists.
      rw [copyRow_apply]
      have hbm : b = (m : Int) := by omega
      have hd : (y + b) * W + (x + a) - ((y + (m : Int)) * W + x) = a := by
        rw [hbm]; ring
      rw [hd, if_pos (by omega)]
      congr 1
      have hm : m = b.toNat := hlast.symm
      subst hm
      rfl
    · -- row m is strictly after row b: it writes only columns of row
      -- `y + m`, which exclude the pixel.
      rw [copyRow_apply]
      have hdW : (b - (m : Int)) * W =
          ((y + b) * W + (x + a) - ((y + (m : Int)) * W + x)) - a := by ring
      have hne : ¬ (0 ≤ (y + b) * W + (x + a) - ((y + (m : Int)) * W + x) ∧
          (y + b) * W + (x + a) - ((y + (m : Int)) * W + x) < ((w.toNat : Nat) : Int)) := by
        rintro ⟨h1, h2⟩
        have h0 : b - (m : Int) = 0 :=
          int_mul_eq_zero_of_abs_lt hW (by omega) (by omega) hdW
        omega
      rw [if_neg hne]
      exact ih fb (by omega)

theorem copyRect_pixel (fb : Int → Nat) (src : Nat → Nat) (W x y w h a b : Int)
    (hW : 0 < W) (hx : 0 ≤ x) (hxw : x + w ≤ W)
    (ha : 0 ≤ a) (haw : a < w) (hb : 0 ≤ b) (hbh : b < h) :
    copyRect fb src W x y w h ((y + b) * W + (x + a)) =
      src (b.toNat * w.toNat + a.toNat) := by
  rw [copyRect]
  exact copyRect_rows_pixel src W x y w a b hW hx hxw ha haw hb h.toNat fb (by omega)

/-- Correctness of a sequence of aliased moves: if no later move reads an
index already written by an earlier move, every written index receives
the ORIGINAL value at its offset source, and other indices are
untouched. -/
theorem applyMoves_eq (off : Int) :
    ∀ (ts : List Int), ts.Pairwise (fun t u => u + off ≠ t) →
    ∀ (fb : Int → Nat) (p : Int),
      applyMoves off fb ts p = if p ∈ ts then fb (p + off) else fb p := by
  intro ts
  induction ts with
  | nil => intro _ fb p; simp [applyMoves]
  | cons t rest ih =>
    intro hp fb p
    rw [List.pairwise_cons] at hp
    have IH := ih hp.2 (writePx fb t (fb (t + off))) p
    rw [applyMoves, List.foldl_cons]
    rw [show List.foldl (fun g u => writePx g u (g (u + off)))
        (writePx fb t (fb (t + off))) rest =
        applyMoves off (writePx fb t (fb (t + off))) rest from rfl]
    rw [IH]
    by_cases hmem : p ∈ rest
    · have hne : p + off ≠ t := hp.1 p hmem
      rw [if_pos hmem, if_pos (List.mem_cons_of_mem _ hmem), writePx, if_neg hne]
    · by_cases hpt : p = t
      · subst hpt
        rw [if_neg hmem, if_pos (List.mem_cons_self _ _), writePx, if_pos rfl]
      · rw [if_neg hmem, if_neg (by simp [hmem, hpt]), writePx, if_neg hpt]

/-- The loop nest equals the flat move sequence over
rows × columns in visit order. -/
theorem copyRectFromRect_eq_applyMoves
    (fb : Int → Nat) (W src_x src_y w h dest_x dest_y : Int) :
    copyRectFromRect fb W src_x src_y w h dest_x dest_y =
      applyMoves (selfOff W src_x src_y dest_x dest_y) fb
        (((selfRows src_y dest_y h).map
          (fun r => (selfCols src_x dest_x w).map (fun i => r * W + i))).flatten) := by
  rw [copyRectFromRect, applyMoves, List.foldl_flatten, List.foldl_map]
  congr 1
  funext g r
  rw [List.foldl_map]

theorem mem_selfCols {src_x dest_x w i : Int} :
    i ∈ selfCols src_x dest_x w ↔ dest_x ≤ i ∧ i < dest_x + w := by
  rw [selfCols]
  split
  · exact mem_intRange
  · rw [List.mem_reverse]; exact mem_intRange

theorem mem_selfRows {src_y dest_y h r : Int} :
    r ∈ selfRows src_y dest_y h ↔ dest_y ≤ r ∧ r < dest_y + h := by
  rw [selfRows]
  split
  · exact mem_intRange
  · rw [List.mem_reverse]; exact mem_intRange

theorem selfCols_pairwise_lt {src_x dest_x w : Int} (hx : dest_x < src_x) :
    (selfCols src_x dest_x w).Pairwise (· < ·) := by
  rw [selfCols, if_pos hx]
  exact intRange_pairwise_lt _ _

theorem selfCols_pairwise_gt {src_x dest_x w : Int} (hx : ¬ dest_x < src_x) :
    (selfCols src_x dest_x w).Pairwise (· > ·) := by
  rw [selfCols, if_neg hx, List.pairwise_reverse]
  exact intRange_pairwise_lt _ _

theorem selfRows_pairwise_lt {src_y dest_y h : Int} (hy : dest_y < src_y) :
    (selfRows src_y dest_y h).Pairwise (· < ·) := by
  rw [selfRows, if_pos hy]
  exact intRange_pairwise_lt _ _

theorem selfRows_pairwise_gt {src_y dest_y h : Int} (hy : ¬ dest_y < src_y) :
    (selfRows src_y dest_y h).Pairwise (· > ·) := by
  rw [selfRows, if_neg hy, List.pairwise_reverse]
  exact intRange_pairwise_lt _ _

/-- The four-way traversal direction choice is safe: no move of the loop
nest ever reads a destination index written by an earlier move. -/
theorem selfTargets_pairwise (W src_x src_y w h dest_x dest_y : Int) (hW : 0 < W)
    (hs0 : 0 ≤ src_x) (hsw : src_x + w ≤ W)
    (hd0 : 0 ≤ dest_x) (hdw : dest_x + w ≤ W) :
    (((selfRows src_y dest_y h).map
      (fun r => (selfCols src_x dest_x w).map (fun i => r * W + i))).flatten).Pairwise
      (fun t u => u + selfOff W src_x src_y dest_x dest_y ≠ t) := by
  rw [List.pairwise_flatten]
  constructor
  · -- moves within one row of the destination rectangle
    intro l hl
    rw [List.mem_map] at hl
    obtain ⟨r, hr, rfl⟩ := hl
    rw [List.pairwise_map]
    by_cases hx : dest_x < src_x
    · refine (selfCols_pairwise_lt hx).imp_of_mem ?_
      intro i i' hi hi' hlt heq
      have hbi := mem_selfCols.mp hi
      have hbi' := mem_selfCols.mp hi'
      rw [selfOff] at heq
      have heq2 : (r + (src_y - dest_y)) * W + (i' + (src_x - dest_x)) =
          r * W + i := by linear_combination heq
      obtain ⟨h1, h2⟩ := linearIdx_inj hW (by omega) (by omega) (by omega)
        (by omega) heq2
      omega
    · refine (selfCols_pairwise_gt hx).imp_of_mem ?_
      intro i i' hi hi' hgt heq
      have hbi := mem_selfCols.mp hi
      have hbi' := mem_selfCols.mp hi'
      rw [selfOff] at heq
      have heq2 : (r + (src_y - dest_y)) * W + (i' + (src_x - dest_x)) =
          r * W + i := by linear_combination heq
      obtain ⟨h1, h2⟩ := linearIdx_inj hW (by omega) (by omega) (by omega)
        (by omega) heq2
      omega
  · -- moves in distinct rows of the destination rectangle
    rw [List.pairwise_map]
    by_cases hy : dest_y < src_y
    · refine (selfRows_pairwise_lt hy).imp_of_mem ?_
      intro r r' hr hr' hlt t ht u hu heq
      rw [List.mem_map] at ht hu
      obtain ⟨i, hi, rfl⟩ := ht
      obtain ⟨i', hi', rfl⟩ := hu
      have hbi := mem_selfCols.mp hi
      have hbi' := mem_selfCols.mp hi'
      rw [selfOff] at heq
      have heq2 : (r' + (src_y - dest_y)) * W + (i' + (src_x - dest_x)) =
          r * W + i := by linear_combination heq
      obtain ⟨h1, h2⟩ := linearIdx_inj hW (by omega) (by omega) (by omega)
        (by omega) heq2
      omega
    · refine (selfRows_pairwise_gt hy).imp_of_mem ?_
      intro r r' hr hr' hgt t ht u hu heq
      rw [List.mem_map] at ht hu
      obtain ⟨i, hi, rfl⟩ := ht
      obtain ⟨i', hi', rfl⟩ := hu
      have hbi := mem_selfCols.mp hi
      have hbi' := mem_selfCols.mp hi'
      rw [selfOff] at heq
      have heq2 : (r' + (src_y - dest_y)) * W + (i' + (src_x - dest_x)) =
          r * W + i := by linear_combination heq
      obtain ⟨h1, h2⟩ := linearIdx_inj hW (by omega) (by omega) (by omega)
        (by omega) heq2
      omega

theorem mem_selfTargets {W src_x src_y w h dest_x dest_y p : Int} :
    p ∈ (((selfRows src_y dest_y h).map
      (fun r => (selfCols src_x dest_x w).map (fun i => r * W + i))).flatten) ↔
    ∃ r i, (dest_y ≤ r ∧ r < dest_y + h) ∧ (dest_x ≤ i ∧ i < dest_x + w) ∧
      p = r * W + i := by
  constructor
  · intro hmem
    rw [List.mem_flatten] at hmem
    obtain ⟨l, hl, hpl⟩ := hmem
    rw [List.mem_map] at hl
    obtain ⟨r, hr, rfl⟩ := hl
    rw [List.mem_map] at hpl
    obtain ⟨i, hi, rfl⟩ := hpl
    exact ⟨r, i, mem_selfRows.mp hr, mem_selfCols.mp hi, rfl⟩
  · rintro ⟨r, i, hr, hi, rfl⟩
    rw [List.mem_flatten]
    exact ⟨_, List.mem_map_of_mem _ (mem_selfRows.mpr hr),
      List.mem_map_of_mem _ (mem_selfCols.mpr hi)⟩

/-- Pixel-level correctness of the loop nest: every pixel of the
destination rectangle receives the value the source rectangle held
before the call, for every relative position of the two rectangles. -/
theorem copyRectFromRect_pixel (fb : Int → Nat)
    (W src_x src_y w h dest_x dest_y a b : Int)
    (hW : 0 < W) (hs0 : 0 ≤ src_x) (hsw : src_x + w ≤ W)
    (hd0 : 0 ≤ dest_x) (hdw : dest_x + w ≤ W)
    (ha : 0 ≤ a) (haw : a < w) (hb : 0 ≤ b) (hbh : b < h) :
    copyRectFromRect fb W src_x src_y w h dest_x dest_y
        ((dest_y + b) * W + (dest_x + a)) =
      fb ((src_y + b) * W + (src_x + a)) := by
  rw [copyRectFromRect_eq_applyMoves]
  rw [applyMoves_eq _ _
    (selfTargets_pairwise W src_x src_y w h dest_x dest_y hW hs0 hsw hd0 hdw)]
  rw [if_pos (mem_selfTargets.mpr
    ⟨dest_y + b, dest_x + a, ⟨by omega, by omega⟩, ⟨by omega, by omega⟩, rfl⟩)]
  congr 1
  rw [selfOff]
  ring

theorem foldl_selfwrite_id (f : Int → Int) :
    ∀ (l : List Int) (g : Int → Nat),
      (l.foldl (fun g2 i => writePx g2 (f i) (g2 (f i))) g) = g := by
  intro l
  induction l with
  | nil => intro g; rfl
  | cons a l ih =>
    intro g
    rw [List.foldl_cons, writePx_self]
    exact ih g

/-- With coincident source and destination every move writes a pixel onto
itself, so the loop nest is the identity. -/
theorem copyRectFromRect_self (fb : Int → Nat) (W x y w h : Int) :
    copyRectFromRect fb W x y w h x y = fb := by
  rw [copyRectFromRect]
  have hoff : selfOff W x y x y = 0 := by rw [selfOff]; ring
  simp only [hoff, add_zero]
  have inner : ∀ (r : Int) (g : Int → Nat),
      (selfCols x x w).foldl (fun g2 i => writePx g2 (r * W + i) (g2 (r * W + i))) g
        = g :=
    fun r g => foldl_selfwrite_id (fun i => r * W + i) _ g
  generalize (selfRows y y h) = rows
  induction rows with
  | nil => rfl
  | cons r rows ih =>
    rw [List.foldl_cons, inner]
    exact ih

/-- **C3**: every rectangle argument failing the containment check makes
`Fill`, `BlockCopy` and `SelfCopy` (for which either rectangle failing
suffices) return with the framebuffer byte-for-byte unchanged. -/
theorem C3_rect_out_of_bounds_noop (c : rfbClient) (buf : Nat → Nat)
    (x y w h sx sy dx dy : Int) (colour : Nat) :
    (checkRect c x y w h = false →
      FillRectangle c x y w h colour = c ∧ CopyRectangle c buf x y w h = c) ∧
    (checkRect c sx sy w h = false ∨ checkRect c dx dy w h = false →
      CopyRectangleFromRectangle c sx sy w h dx dy = c) := by
  obtain ⟨W, H, bpp, fbo, s1, s2, s3⟩ := c
  cases fbo with
  | none => exact ⟨fun _ => ⟨rfl, rfl⟩, fun _ => rfl⟩
  | some fb =>
    refine ⟨fun hchk => ⟨?_, ?_⟩, fun hchk => ?_⟩
    · simp [FillRectangle, hchk]
    · simp [CopyRectangle, hchk]
    · rcases hchk with hchk | hchk <;> simp [CopyRectangleFromRectangle, hchk]

theorem C3_rect_out_of_bounds_noop_witness :
    checkRect fillDemoClient 3 0 2 2 = false ∧
      FillRectangle fillDemoClient 3 0 2 2 9 = fillDemoClient :=
  ⟨by decide,
    ((C3_rect_out_of_bounds_noop fillDemoClient (fun _ => 1) 3 0 2 2 0 0 0 0 9).1
      (by decide)).1⟩

/-- **C9**: with no framebuffer allocated, `Fill`, `BlockCopy` and
`SelfCopy` return immediately, leaving the client unchanged. -/
theorem C9_null_frameBuffer_noop (c : rfbClient) (buf : Nat → Nat)
    (x y w h sx sy dx dy : Int) (colour : Nat)
    (hnull : c.frameBuffer = none) :
    FillRectangle c x y w h colour = c ∧
    CopyRectangle c buf x y w h = c ∧
    CopyRectangleFromRectangle c sx sy w h dx dy = c := by
  obtain ⟨W, H, bpp, fbo, s1, s2, s3⟩ := c
  cases fbo with
  | none => exact ⟨rfl, rfl, rfl⟩
  | some fb => simp at hnull

theorem C9_null_frameBuffer_noop_witness :
    FillRectangle nullDemoClient 0 0 2 2 5 = nullDemoClient ∧
    CopyRectangle nullDemoClient (fun _ => 1) 0 0 2 2 = nullDemoClient ∧
    CopyRectangleFromRectangle nullDemoClient 0 0 2 2 1 1 = nullDemoClient :=
  C9_null_frameBuffer_noop nullDemoClient (fun _ => 1) 0 0 2 2 0 0 1 1 5 rfl

/-- **C10**: `SelfCopy` with coincident source and destination leaves the
framebuffer byte-for-byte unchanged (proved for every rectangle and
every pixel width, which covers the claimed contained/supported cases). -/
theorem C10_selfCopy_identity (c : rfbClient) (x y w h : Int) :
    CopyRectangleFromRectangle c x y w h x y = c := by
  obtain ⟨W, H, bpp, fbo, s1, s2, s3⟩ := c
  cases fbo with
  | none => rfl
  | some fb =>
    simp only [CopyRectangleFromRectangle]
    split_ifs <;> simp [copyRectFromRect_self]

/-- **C2**: the allocation fails (returning FALSE) whenever the computed
64-bit size is not representable in the platform size type, and whenever
the allocator returns no memory; on every failure path the previous
buffer has been freed and no buffer is installed. -/
theorem C2_mallocFrameBuffer_failure (c : rfbClient) (sizeMax : Nat)
    (mres : Option (Int → Nat)) :
    (sizeMax < allocSize64 c →
      (MallocFrameBuffer c sizeMax mres).1 = false ∧
      (MallocFrameBuffer c sizeMax mres).2.frameBuffer = none) ∧
    (mres = none →
      (MallocFrameBuffer c sizeMax mres).1 = false ∧
      (MallocFrameBuffer c sizeMax mres).2.frameBuffer = none) ∧
    ((MallocFrameBuffer c sizeMax mres).1 = false →
      (MallocFrameBuffer c sizeMax mres).2.frameBuffer = none) := by
  unfold MallocFrameBuffer
  split_ifs with hover
  · exact ⟨fun _ => ⟨rfl, rfl⟩, fun _ => ⟨rfl, rfl⟩, fun _ => rfl⟩
  · cases mres with
    | none => exact ⟨fun hlt => absurd (le_of_lt hlt) hover, fun _ => ⟨rfl, rfl⟩,
        fun _ => rfl⟩
    | some buf =>
      refine ⟨fun hlt => absurd (le_of_lt hlt) hover, ?_, ?_⟩
      · intro hm
        simp at hm
      · intro hfalse
        simp at hfalse

theorem C2_mallocFrameBuffer_failure_witness :
    (2 ^ 32 - 1 < allocSize64 mallocDemoClient) ∧
    ((MallocFrameBuffer mallocDemoClient (2 ^ 32 - 1) none).1 = false ∧
      (MallocFrameBuffer mallocDemoClient (2 ^ 32 - 1) none).2.frameBuffer = none) :=
  ⟨by decide,
    (C2_mallocFrameBuffer_failure mallocDemoClient (2 ^ 32 - 1) none).1 (by decide)⟩

/-- **C4**: for every contained rectangle and supported pixel width,
`FillRectangle` writes the colour truncated to the active pixel width
into every pixel of the rectangle and leaves every pixel outside it
unchanged (stated pointwise for an arbitrary in-row pixel `(a, b)`). -/
theorem C4_fillRectangle_pixel (c : rfbClient) (fb : Int → Nat)
    (x y w h : Int) (colour : Nat) (a b : Int)
    (hfb : c.frameBuffer = some fb)
    (hbpp : c.bitsPerPixel = 8 ∨ c.bitsPerPixel = 16 ∨ c.bitsPerPixel = 32)
    (hW : 0 < c.width) (hx : 0 ≤ x)
    (hchk : checkRect c x y w h = true)
    (ha : 0 ≤ a) (haW : a < c.width) :
    pixelAt (FillRectangle c x y w h colour) (b * c.width + a) =
      if x ≤ a ∧ a < x + w ∧ y ≤ b ∧ b < y + h
      then colour % 2 ^ c.bitsPerPixel
      else fb (b * c.width + a) := by
  have hxw : x + w ≤ c.width := (checkRect_iff.mp hchk).1
  rcases hbpp with hB | hB | hB <;>
  · simp only [FillRectangle, hfb, hchk, hB, Bool.true_eq_false, not_true_eq_false,
      if_false, reduceIte, pixelAt]
    exact fillRect_pixel fb c.width x y w h _ a b hW hx hxw ha haW

theorem C4_fillRectangle_pixel_witness :
    pixelAt (FillRectangle fillDemoClient 0 0 2 2 65535)
        (0 * fillDemoClient.width + 0) =
      if (0 : Int) ≤ 0 ∧ (0 : Int) < 0 + 2 ∧ (0 : Int) ≤ 0 ∧ (0 : Int) < 0 + 2
      then 65535 % 2 ^ fillDemoClient.bitsPerPixel
      else (fun _ => 0 : Int → Nat) (0 * fillDemoClient.width + 0) :=
  C4_fillRectangle_pixel fillDemoClient (fun _ => 0) 0 0 2 2 65535 0 0 rfl
    (Or.inr (Or.inl rfl)) (by decide) (by decide) (by decide) (by decide) (by decide)

/-- **C5**: for every contained rectangle and supported pixel width,
`CopyRectangle` copies the tightly packed row-major source into the
rectangle row by row: pixel `(x+a, y+b)` of the framebuffer receives
source pixel `b*w + a`, i.e. the source advances by `w` pixels
(`w * bytesPerPixel` bytes) between rows while the destination advances
by the framebuffer row stride. -/
theorem C5_copyRectangle_rows (c : rfbClient) (fb : Int → Nat)
    (src : Nat → Nat) (x y w h a b : Int)
    (hfb : c.frameBuffer = some fb)
    (hbpp : c.bitsPerPixel = 8 ∨ c.bitsPerPixel = 16 ∨ c.bitsPerPixel = 32)
    (hW : 0 < c.width) (hx : 0 ≤ x)
    (hchk : checkRect c x y w h = true)
    (ha : 0 ≤ a) (haw : a < w) (hb : 0 ≤ b) (hbh : b < h) :
    pixelAt (CopyRectangle c src x y w h) ((y + b) * c.width + (x + a)) =
      src (b.toNat * w.toNat + a.toNat) := by
  have hxw : x + w ≤ c.width := (checkRect_iff.mp hchk).1
  rcases hbpp with hB | hB | hB <;>
  · simp only [CopyRectangle, hfb, hchk, hB, Bool.true_eq_false, not_true_eq_false,
      if_false, reduceIte, pixelAt]
    exact copyRect_pixel fb src c.width x y w h a b hW hx hxw ha haw hb hbh

theorem C5_copyRectangle_rows_witness :
    pixelAt (CopyRectangle fillDemoClient (fun k => 100 + k) 1 1 2 2)
        ((1 + 1) * fillDemoClient.width + (1 + 1)) =
      (fun k => 100 + k) ((1 : Int).toNat * (2 : Int).toNat + (1 : Int).toNat) :=
  C5_copyRectangle_rows fillDemoClient (fun _ => 0) (fun k => 100 + k) 1 1 2 2 1 1
    rfl (Or.inr (Or.inl rfl)) (by decide) (by decide) (by decide) (by decide)
    (by decide) (by decide) (by decide)

/-- **C1**: `SelfCopy` is a correct overlapping-region move: for every
supported pixel width and every pair of equal-size contained rectangles,
each destination pixel `(dest_x+a, dest_y+b)` afterwards holds the value
the source pixel `(src_x+a, src_y+b)` held before the call, for every
relative position (hence every overlap direction) of the rectangles. -/
theorem C1_selfCopy_correct_move (c : rfbClient) (fb : Int → Nat)
    (src_x src_y w h dest_x dest_y a b : Int)
    (hfb : c.frameBuffer = some fb)
    (hbpp : c.bitsPerPixel = 8 ∨ c.bitsPerPixel = 16 ∨ c.bitsPerPixel = 32)
    (hW : 0 < c.width) (hs0 : 0 ≤ src_x) (hd0 : 0 ≤ dest_x)
    (hsrc : checkRect c src_x src_y w h = true)
    (hdst : checkRect c dest_x dest_y w h = true)
    (ha : 0 ≤ a) (haw : a < w) (hb : 0 ≤ b) (hbh : b < h) :
    pixelAt (CopyRectangleFromRectangle c src_x src_y w h dest_x dest_y)
        ((dest_y + b) * c.width + (dest_x + a)) =
      fb ((src_y + b) * c.width + (src_x + a)) := by
  have hsw : src_x + w ≤ c.width := (checkRect_iff.mp hsrc).1
  have hdw : dest_x + w ≤ c.width := (checkRect_iff.mp hdst).1
  rcases hbpp with hB | hB | hB <;>
  · simp only [CopyRectangleFromRectangle, hfb, hsrc, hdst, hB,
      Bool.true_eq_false, not_true_eq_false, if_false, reduceIte, pixelAt]
    exact copyRectFromRect_pixel fb c.width src_x src_y w h dest_x dest_y a b
      hW hs0 hsw hd0 hdw ha haw hb hbh

theorem C1_selfCopy_correct_move_witness :
    pixelAt (CopyRectangleFromRectangle idxDemoClient 0 0 2 2 1 1)
        ((1 + 0) * idxDemoClient.width + (1 + 0)) =
      idxDemoFB ((0 + 0) * idxDemoClient.width + (0 + 0)) :=
  C1_selfCopy_correct_move idxDemoClient idxDemoFB 0 0 2 2 1 1 0 0 rfl
    (Or.inr (Or.inl rfl)) (by decide) (by decide) (by decide) (by decide)
    (by decide) (by decide) (by decide) (by decide) (by decide)

/-- **C6 counterexample**: a client whose IPv6 listen socket is a valid
handle (5) — `rfbClientCleanup` does not close it, contradicting the
claim that every one of the three sockets is closed iff it is not the
invalid sentinel. -/
theorem C6_counterexample_listen6Sock :
    cleanup6DemoClient.listen6Sock ≠ RFB_INVALID_SOCKET ∧
    cleanup6DemoClient.listen6Sock ∉
      rfbClientCleanup_closedSockets cleanup6DemoClient := by
  decide

/-- **C6 (amended)**: `rfbClientCleanup` closes exactly the primary
socket and the IPv4 listen socket, each iff it is not the invalid
sentinel; in particular no invalid handle is ever passed to close, and
the IPv6 listen socket is never closed (unless it coincides with one of
the two closed handles). -/
theorem C6_cleanup_closed_iff (c : rfbClient) (s : Int) :
    s ∈ rfbClientCleanup_closedSockets c ↔
      (s = c.sock ∨ s = c.listenSock) ∧ s ≠ RFB_INVALID_SOCKET := by
  rw [rfbClientCleanup_closedSockets, List.mem_append]
  constructor
  · intro hs
    rcases hs with hs | hs
    · by_cases h1 : c.sock ≠ RFB_INVALID_SOCKET
      · rw [if_pos h1, List.mem_singleton] at hs
        exact ⟨Or.inl hs, hs ▸ h1⟩
      · rw [if_neg h1] at hs
        exact absurd hs (List.not_mem_nil s)
    · by_cases h2 : c.listenSock ≠ RFB_INVALID_SOCKET
      · rw [if_pos h2, List.mem_singleton] at hs
        exact ⟨Or.inr hs, hs ▸ h2⟩
      · rw [if_neg h2] at hs
        exact absurd hs (List.not_mem_nil s)
  · rintro ⟨hs | hs, hne⟩
    · subst hs
      left
      rw [if_pos hne]
      exact List.mem_singleton_self _
    · subst hs
      right
      rw [if_pos hne]
      exact List.mem_singleton_self _

/-- The auth-subprocess helper only ever spawns the shell (reading only
the SHELL variable in the child) and runs the command: its effect trace
never consults the credential environment variables or the terminal. -/
theorem runAuthCommand_trace_clean (w : World) (b : Bool) :
    ((RunAuthCommand w b).2.all fun e => !(consultsFallback e)) = true := by
  simp only [RunAuthCommand]
  split_ifs <;> rfl

/-- With an auth-command configured, `ReadPassword`'s effect trace is
exactly `RunAuthCommand`'s. -/
theorem readPassword_trace (w : World) (cmd : String)
    (hc : w.auth_command = some cmd) :
    (ReadPassword w).2 = (RunAuthCommand w false).2 := by
  rw [ReadPassword, hc]
  cases hR : RunAuthCommand w false with
  | mk res tr =>
    cases res with
    | crash => rfl
    | ret rc u p => by_cases hrc : rc < 0 <;> simp [hrc]

/-- With an auth-command configured, `ReadUsernameAndPassword`'s effect
trace is exactly `RunAuthCommand`'s. -/
theorem readUsernameAndPassword_trace (w : World) (cmd : String)
    (hc : w.auth_command = some cmd) :
    (ReadUsernameAndPassword w).2 = (RunAuthCommand w true).2 := by
  rw [ReadUsernameAndPassword, hc]
  cases hR : RunAuthCommand w true with
  | mk res tr =>
    cases res with
    | crash => rfl
    | ret rc u p => by_cases hrc : rc < 0 <;> simp [hrc]

/-- **C7**: whenever an auth-command is configured, `ReadPassword` and
`ReadUsernameAndPassword` obtain credentials exclusively from the
external command: neither the VNC_USERNAME/VNC_PASSWORD environment
variables nor any interactive prompt ever appears in their effect
traces, even when those alternatives are available in the world. -/
theorem C7_authCommand_precedence (w : World) (cmd : String)
    (hc : w.auth_command = some cmd) :
    ((ReadPassword w).2.all fun e => !(consultsFallback e)) = true ∧
    ((ReadUsernameAndPassword w).2.all fun e => !(consultsFallback e)) = true := by
  rw [readPassword_trace w cmd hc, readUsernameAndPassword_trace w cmd hc]
  exact ⟨runAuthCommand_trace_clean w false, runAuthCommand_trace_clean w true⟩

theorem C7_authCommand_precedence_witness :
    ((ReadPassword authDemoWorld).2.all fun e => !(consultsFallback e)) = true ∧
    ((ReadUsernameAndPassword authDemoWorld).2.all
      fun e => !(consultsFallback e)) = true :=
  C7_authCommand_precedence authDemoWorld "getpw" rfl

/-- **C8 (code bug)**: when no username is requested (the `GetPassword`
path) and the auth command exits normally with no password line on
stdout, `RunAuthCommand` does not return the required failure result:
the missing-credentials check `if ((*username && !*username) ||
!*password)` (vncviewer.c:154) dereferences the NULL `username`
out-parameter — undefined behaviour, modelled as `crash` — instead of
returning -1 (the check `*username && !*username` is self-contradictory;
`username && !*username` was clearly intended).  Consequently
`ReadPassword` crashes on this input as well. -/
theorem C8_runAuthCommand_null_deref :
    (RunAuthCommand authNoOutputWorld false).1 = RunAuthResult.crash ∧
    (ReadPassword authNoOutputWorld).1 = Outcome.crash := by
  constructor <;> rfl
